import Mathlib

/-!
Verification development for the local order-book synchronization engine
in src/src/main.rs.

Prices and quantities are modelled as exact rationals: the source uses
rust_decimal's Decimal, an exact scaled-decimal type whose ordering and
equality coincide with the ordering and equality of the represented
rational value. A BTreeMap from Decimal to Decimal is modelled as an
association list of price-quantity pairs kept strictly sorted by key in
increasing order, the ordered-map representation of BTreeMap. Sequence
ids are u64 values; the claims never exercise wrap-around, so they are
modelled as natural numbers.
-/

namespace OrderBookSync

/-- Numeric value of a list of decimal digit characters. -/
def natOfDigits (cs : List Char) : ℕ :=
  cs.foldl (fun n c => 10 * n + (c.toNat - 48)) 0

/-- All characters are decimal digits. -/
def isDigits (cs : List Char) : Bool :=
  cs.all (fun c => c.isDigit)

/-- Unsigned part of rust_decimal string parsing: digits with at most one
decimal point and at least one digit in total. -/
def parseUnsigned (cs : List Char) : Option ℚ :=
  let intPart := cs.takeWhile (fun c => c != '.')
  let rest := cs.dropWhile (fun c => c != '.')
  match rest with
  | [] =>
      if !intPart.isEmpty && isDigits intPart then
        some ((natOfDigits intPart : ℕ) : ℚ)
      else
        none
  | _ :: fracPart =>
      if (!intPart.isEmpty || !fracPart.isEmpty)
          && isDigits intPart && isDigits fracPart then
        some (((natOfDigits intPart : ℕ) : ℚ)
          + ((natOfDigits fracPart : ℕ) : ℚ) / (10 : ℚ) ^ fracPart.length)
      else
        none

/-- Model of parsing a price or quantity string into an exact decimal
value, as done by str.parse with target rust_decimal Decimal:
an optional sign followed by digits with at most one decimal point.
Returns none exactly when the source parse returns Err. -/
def parseDecimal (s : String) : Option ℚ :=
  match s.toList with
  | [] => none
  | '-' :: cs => (parseUnsigned cs).map (fun q => -q)
  | '+' :: cs => parseUnsigned cs
  | cs => parseUnsigned cs

/-- BTreeMap insert on the sorted association-list representation:
inserts the key in order, overwriting the value when the key is present. -/
def insertSorted (k v : ℚ) : List (ℚ × ℚ) → List (ℚ × ℚ)
  | [] => [(k, v)]
  | (k', v') :: t =>
    if k < k' then (k, v) :: (k', v') :: t
    else if k = k' then (k, v) :: t
    else (k', v') :: insertSorted k v t

/-- BTreeMap remove on the association-list representation. -/
def removeKey (k : ℚ) (m : List (ℚ × ℚ)) : List (ℚ × ℚ) :=
  m.filter (fun p => decide (p.1 ≠ k))

/-- BTreeMap lookup on the association-list representation. -/
def lookupKey (k : ℚ) (m : List (ℚ × ℚ)) : Option ℚ :=
  (m.find? (fun p => decide (p.1 = k))).map (fun p => p.2)

/-- Raw REST depth snapshot, struct DepthSnapshot in the source:
a baseline update id and raw string pairs for both sides. -/
structure DepthSnapshot where
  lastUpdateId : ℕ
  bids : List (String × String)
  asks : List (String × String)
deriving Repr, DecidableEq

/-- Raw websocket diff message, struct DepthUpdate in the source.
Field U is the first update id of the event, u the last. -/
structure DepthUpdate where
  e : String
  E : ℕ
  s : String
  U : ℕ
  u : ℕ
  b : List (String × String)
  a : List (String × String)
deriving Repr, DecidableEq

/-- The local book, struct OrderBook in the source: the last applied
update id and both sorted price-to-quantity maps. -/
structure OrderBook where
  last_update_id : ℕ
  bids : List (ℚ × ℚ)
  asks : List (ℚ × ℚ)
deriving Repr, DecidableEq

/-- One side of OrderBook.from_snapshot: parse every pair, drop
zero-quantity levels, insert the rest; the first parse failure aborts
the whole construction. -/
def loadSide : List (String × String) → List (ℚ × ℚ) → Option (List (ℚ × ℚ))
  | [], m => some m
  | d :: t, m =>
    match parseDecimal d.1, parseDecimal d.2 with
    | some price, some quantity =>
        loadSide t (if quantity = 0 then m else insertSorted price quantity m)
    | _, _ => none

/-- OrderBook.from_snapshot: build a book from a snapshot, or fail on the
first malformed numeric string. -/
def from_snapshot (snapshot : DepthSnapshot) : Option OrderBook :=
  match loadSide snapshot.bids [], loadSide snapshot.asks [] with
  | some bids, some asks =>
      some { last_update_id := snapshot.lastUpdateId, bids := bids, asks := asks }
  | _, _ => none

/-- Outcome of OrderBook.apply_depth_update: Ok of unit, an Err coming
from a failed Decimal parse, or the Err built from the discontinuity
message in the else branch. -/
inductive UpdateResult where
  | ok
  | errParse
  | errDiscontinuous
deriving Repr, DecidableEq

/-- One side's delta loop inside apply_depth_update. The source parses
and mutates in the same loop iteration, so a parse failure returns early
with the map already holding the effects of all earlier deltas: the
result is the success flag together with the possibly partially mutated
map. -/
def applySide : List (String × String) → List (ℚ × ℚ) → Bool × List (ℚ × ℚ)
  | [], m => (true, m)
  | d :: t, m =>
    match parseDecimal d.1, parseDecimal d.2 with
    | some price, some quantity =>
        applySide t (if quantity = 0 then removeKey price m else insertSorted price quantity m)
    | _, _ => (false, m)

/-- OrderBook.apply_depth_update. The only sequence check in the source
is last_update_id < update.u; on success the bid deltas are applied, then
the ask deltas, then last_update_id is set to update.u. A parse failure
returns early with Err, keeping the mutations already made. The returned
pair is the function result together with the post-state of the book. -/
def apply_depth_update (ob : OrderBook) (update : DepthUpdate) :
    UpdateResult × OrderBook :=
  if ob.last_update_id < update.u then
    match applySide update.b ob.bids with
    | (true, bids') =>
      match applySide update.a ob.asks with
      | (true, asks') =>
          (UpdateResult.ok,
            { last_update_id := update.u, bids := bids', asks := asks' })
      | (false, asks') =>
          (UpdateResult.errParse, { ob with bids := bids', asks := asks' })
    | (false, bids') =>
        (UpdateResult.errParse, { ob with bids := bids' })
  else
    (UpdateResult.errDiscontinuous, ob)

/-- Ordering used by OrderBook.bids_list: the sort_by comparator compares
the second key against the first, sorting by price descending. -/
def descBidOrder (x y : ℚ × ℚ) : Prop := y.1 ≤ x.1

instance : DecidableRel descBidOrder :=
  fun x y => inferInstanceAs (Decidable (y.1 ≤ x.1))

instance : IsTotal (ℚ × ℚ) descBidOrder :=
  ⟨fun x y => le_total y.1 x.1⟩

instance : IsTrans (ℚ × ℚ) descBidOrder :=
  ⟨fun _ _ _ hxy hyz => le_trans hyz hxy⟩

/-- OrderBook.bids_list: collect the bid entries and stable-sort them by
price descending. -/
def bids_list (ob : OrderBook) : List (ℚ × ℚ) :=
  List.insertionSort descBidOrder ob.bids

/-- OrderBook.asks_list: the ask entries in map order, already ascending
by price. -/
def asks_list (ob : OrderBook) : List (ℚ × ℚ) :=
  ob.asks

/-- OrderBook.best_bid: max_by on the bid entries comparing keys; among
equal keys the later entry wins, matching Iterator max_by. -/
def best_bid (ob : OrderBook) : Option (ℚ × ℚ) :=
  match ob.bids with
  | [] => none
  | x :: t => some (t.foldl (fun acc y => if acc.1 > y.1 then acc else y) x)

/-- OrderBook.best_ask: min_by on the ask entries comparing keys; among
equal keys the earlier entry wins, matching Iterator min_by. -/
def best_ask (ob : OrderBook) : Option (ℚ × ℚ) :=
  match ob.asks with
  | [] => none
  | x :: t => some (t.foldl (fun acc y => if acc.1 > y.1 then y else acc) x)

/-- OrderBook.spread: best ask price minus best bid price when both sides
are present, none otherwise. -/
def spread (ob : OrderBook) : Option ℚ :=
  match best_bid ob, best_ask ob with
  | some bid, some ask => some (ask.1 - bid.1)
  | _, _ => none

/-- The snapshot-adoption decision inlined in main (lines 384 to 401):
with no live book and a pending update, a fetched snapshot book is kept
iff update.U < book id and book id > update.u, and its id is then
overwritten with update.u; otherwise the book is dropped. -/
def bootstrap_adopt (ob : OrderBook) (update : DepthUpdate) : Option OrderBook :=
  if update.U < ob.last_update_id ∧ ob.last_update_id > update.u then
    some { ob with last_update_id := update.u }
  else
    none

/-- Modelled from the spec, section 4.4: an update covers a snapshot
baseline iff first-update-id ≤ baseline ≤ last-update-id. Used only to
compare the source's adoption condition against the spec's overlap rule. -/
def spec_covers (baseline firstId lastId : ℕ) : Prop :=
  firstId ≤ baseline ∧ baseline ≤ lastId

/-- The spec's upsert contract, section 4.1, on one side's map: quantity
zero removes the price key, any other quantity inserts or overwrites. -/
def upsert (m : List (ℚ × ℚ)) (price quantity : ℚ) : List (ℚ × ℚ) :=
  if quantity = 0 then removeKey price m else insertSorted price quantity m

/-- The parsed delta list of one side of an update. -/
def parsedDeltas (l : List (String × String)) : List (ℚ × ℚ) :=
  l.filterMap (fun d =>
    match parseDecimal d.1, parseDecimal d.2 with
    | some price, some quantity => some (price, quantity)
    | _, _ => none)

/-- Every string of one side of an update parses as a decimal. -/
def sideParses (l : List (String × String)) : Bool :=
  l.all (fun d => (parseDecimal d.1).isSome && (parseDecimal d.2).isSome)

/-- Every string of an update parses as a decimal. -/
def allParses (update : DepthUpdate) : Bool :=
  sideParses update.b && sideParses update.a

/-- Maximum of a list of prices. -/
def keyMax : List ℚ → Option ℚ
  | [] => none
  | x :: t => some (t.foldl max x)

/-- Minimum of a list of prices. -/
def keyMin : List ℚ → Option ℚ
  | [] => none
  | x :: t => some (t.foldl min x)

/-- No entry of either side carries quantity zero. -/
def NoZeroQty (ob : OrderBook) : Prop :=
  (∀ p ∈ ob.bids, p.2 ≠ 0) ∧ (∀ p ∈ ob.asks, p.2 ≠ 0)

/-- The representation invariant of a BTreeMap model: keys strictly
increasing. -/
def sortedByKey (m : List (ℚ × ℚ)) : Prop :=
  List.Pairwise (fun x y => x.1 < y.1) m

instance (m : List (ℚ × ℚ)) : Decidable (sortedByKey m) :=
  inferInstanceAs (Decidable (List.Pairwise (fun x y : ℚ × ℚ => x.1 < y.1) m))

instance (ob : OrderBook) : Decidable (NoZeroQty ob) :=
  inferInstanceAs (Decidable ((∀ p ∈ ob.bids, p.2 ≠ 0) ∧ (∀ p ∈ ob.asks, p.2 ≠ 0)))

instance (baseline firstId lastId : ℕ) : Decidable (spec_covers baseline firstId lastId) :=
  inferInstanceAs (Decidable (firstId ≤ baseline ∧ baseline ≤ lastId))

/-- The success flag of one side's delta loop is exactly whether every
string of that side parses. -/
theorem applySide_fst (l : List (String × String)) :
    ∀ m, (applySide l m).1 = sideParses l := by
  induction l with
  | nil => intro m; rfl
  | cons d t ih =>
    intro m
    cases hp : parseDecimal d.1 with
    | none => simp [applySide, sideParses, hp]
    | some price =>
      cases hq : parseDecimal d.2 with
      | none => simp [applySide, sideParses, hp, hq]
      | some quantity => simp [applySide, sideParses, hp, hq, ih]

/-- When every string of a side parses, the delta loop succeeds and the
resulting map is the fold of the spec's upsert over the parsed deltas. -/
theorem applySide_eq_fold (l : List (String × String)) (h : sideParses l = true) :
    ∀ m, applySide l m =
      (true, (parsedDeltas l).foldl (fun acc d => upsert acc d.1 d.2) m) := by
  induction l with
  | nil => intro m; rfl
  | cons d t ih =>
    intro m
    cases hp : parseDecimal d.1 with
    | none => simp [sideParses, hp] at h
    | some price =>
      cases hq : parseDecimal d.2 with
      | none => simp [sideParses, hp, hq] at h
      | some quantity =>
        have ht : sideParses t = true := by
          simpa [sideParses, hp, hq] using h
        simp [applySide, parsedDeltas, hp, hq, upsert, ih ht]

/-- C1. The claim: an update whose first-update-id exceeds sequence_id
plus one is rejected with a gap signal and the ledger is unchanged. The
code never inspects the first-update-id U: at sequence 200, the update
with U = 205 and u = 210 is fully applied with success, the sequence id
advancing to 210, instead of signaling a gap and leaving the ledger
unchanged. -/
theorem gap_update_is_applied_not_rejected :
    200 + 1 < 205 ∧
      apply_depth_update (OrderBook.mk 200 [] [])
          (DepthUpdate.mk "depthUpdate" 0 "BNBUSDT" 205 210 [] []) =
        (UpdateResult.ok, OrderBook.mk 210 [] []) := by
  decide

/-- C3 counterexample. The claim: a stale update (last-update-id at or
below the current sequence_id) is a silent no-op returning success. In
the code the else branch returns the discontinuity error: at sequence 5,
an update with u = 5 yields errDiscontinuous, which is not ok. -/
theorem stale_update_returns_error :
    apply_depth_update (OrderBook.mk 5 [] [])
        (DepthUpdate.mk "depthUpdate" 0 "BNBUSDT" 3 5 [] []) =
      (UpdateResult.errDiscontinuous, OrderBook.mk 5 [] []) ∧
      UpdateResult.errDiscontinuous ≠ UpdateResult.ok := by
  decide

/-- C3 amended: an update whose last-update-id is at or below the current
sequence_id is rejected with the discontinuity error rather than
silently accepted; the book, both maps and sequence id, is returned
unchanged. -/
theorem stale_update_rejected_book_unchanged (ob : OrderBook) (update : DepthUpdate)
    (h : update.u ≤ ob.last_update_id) :
    apply_depth_update ob update = (UpdateResult.errDiscontinuous, ob) := by
  simp [apply_depth_update, Nat.not_lt.mpr h]

/-- C3 witness: the amended statement at a concrete stale input. -/
theorem stale_update_rejected_book_unchanged_witness :
    apply_depth_update (OrderBook.mk 7 [((1 : ℚ), (2 : ℚ))] [])
        (DepthUpdate.mk "depthUpdate" 0 "BNBUSDT" 6 7 [("1", "0")] []) =
      (UpdateResult.errDiscontinuous, OrderBook.mk 7 [((1 : ℚ), (2 : ℚ))] []) :=
  stale_update_rejected_book_unchanged
    (OrderBook.mk 7 [((1 : ℚ), (2 : ℚ))] [])
    (DepthUpdate.mk "depthUpdate" 0 "BNBUSDT" 6 7 [("1", "0")] [])
    (by decide)

/-- C10. An accepted update with empty delta lists succeeds, advances
sequence_id to u and leaves both maps unchanged. -/
theorem empty_update_advances_seq_only (ob : OrderBook) (update : DepthUpdate)
    (hb : update.b = []) (ha : update.a = [])
    (hs : ob.last_update_id < update.u) :
    apply_depth_update ob update =
      (UpdateResult.ok, OrderBook.mk update.u ob.bids ob.asks) := by
  simp [apply_depth_update, hb, ha, applySide, hs]

/-- C10 witness: the statement at a concrete input. -/
theorem empty_update_advances_seq_only_witness :
    apply_depth_update (OrderBook.mk 3 [((1 : ℚ), (2 : ℚ))] [((4 : ℚ), (5 : ℚ))])
        (DepthUpdate.mk "depthUpdate" 0 "BNBUSDT" 4 9 [] []) =
      (UpdateResult.ok, OrderBook.mk 9 [((1 : ℚ), (2 : ℚ))] [((4 : ℚ), (5 : ℚ))]) :=
  empty_update_advances_seq_only
    (OrderBook.mk 3 [((1 : ℚ), (2 : ℚ))] [((4 : ℚ), (5 : ℚ))])
    (DepthUpdate.mk "depthUpdate" 0 "BNBUSDT" 4 9 [] [])
    rfl rfl (by decide)

/-- C2 counterexample. The claim: a parse failure leaves the maps exactly
as before the call. In the code parsing and mutation share one loop: at
an empty book, the accepted update whose bid deltas are a valid pair
followed by a malformed one returns the parse error with the first delta
already applied, so the bids map differs from the pre-state. -/
theorem parse_failure_partially_applies :
    apply_depth_update (OrderBook.mk 0 [] [])
        (DepthUpdate.mk "depthUpdate" 0 "BNBUSDT" 1 1 [("10", "5"), ("x", "1")] []) =
      (UpdateResult.errParse, OrderBook.mk 0 [((10 : ℚ), (5 : ℚ))] []) ∧
      ([((10 : ℚ), (5 : ℚ))] : List (ℚ × ℚ)) ≠ [] := by
  decide

/-- C2 amended: if the update passes the sequence check and any of its
price or quantity strings fails to parse, apply_depth_update returns the
parse error and sequence_id is unchanged; the maps, however, may already
hold the deltas that preceded the malformed one. -/
theorem parse_failure_errors_seq_unchanged (ob : OrderBook) (update : DepthUpdate)
    (hs : ob.last_update_id < update.u) (hfail : allParses update = false) :
    (apply_depth_update ob update).1 = UpdateResult.errParse ∧
      (apply_depth_update ob update).2.last_update_id = ob.last_update_id := by
  rcases hB : applySide update.b ob.bids with ⟨bflag, bids'⟩
  have hb : bflag = sideParses update.b := by
    have := applySide_fst update.b ob.bids
    rw [hB] at this
    exact this
  cases hbp : sideParses update.b with
  | false =>
    rw [hbp] at hb; subst hb
    simp [apply_depth_update, hs, hB]
  | true =>
    rw [hbp] at hb; subst hb
    rcases hA : applySide update.a ob.asks with ⟨aflag, asks'⟩
    have ha : aflag = sideParses update.a := by
      have := applySide_fst update.a ob.asks
      rw [hA] at this
      exact this
    have hap : sideParses update.a = false := by
      simpa [allParses, hbp] using hfail
    rw [hap] at ha; subst ha
    simp [apply_depth_update, hs, hB, hA]

/-- C2 amended witness: the amended statement at a concrete input with a
malformed quantity among the ask deltas. -/
theorem parse_failure_errors_seq_unchanged_witness :
    (apply_depth_update (OrderBook.mk 1 [] [])
        (DepthUpdate.mk "depthUpdate" 0 "BNBUSDT" 2 2 [] [("3", "oops")])).1 =
      UpdateResult.errParse ∧
      (apply_depth_update (OrderBook.mk 1 [] [])
          (DepthUpdate.mk "depthUpdate" 0 "BNBUSDT" 2 2 [] [("3", "oops")])).2.last_update_id =
        (OrderBook.mk 1 [] []).last_update_id :=
  parse_failure_errors_seq_unchanged (OrderBook.mk 1 [] [])
    (DepthUpdate.mk "depthUpdate" 0 "BNBUSDT" 2 2 [] [("3", "oops")])
    (by decide) (by decide)

/-- Looking up a key after removing it finds nothing. -/
theorem lookupKey_removeKey (k : ℚ) (m : List (ℚ × ℚ)) :
    lookupKey k (removeKey k m) = none := by
  induction m with
  | nil => rfl
  | cons p t ih =>
    by_cases h : p.1 = k
    · have h2 : removeKey k (p :: t) = removeKey k t := by
        simp [removeKey, List.filter_cons, h]
      rw [h2]
      exact ih
    · have h2 : removeKey k (p :: t) = p :: removeKey k t := by
        simp [removeKey, List.filter_cons, h]
      have h3 : lookupKey k (p :: removeKey k t) = lookupKey k (removeKey k t) := by
        simp [lookupKey, List.find?_cons, h]
      rw [h2, h3]
      exact ih

/-- Removing an absent key is a no-op. -/
theorem removeKey_eq_self_of_absent (k : ℚ) :
    ∀ m : List (ℚ × ℚ), (∀ p ∈ m, p.1 ≠ k) → removeKey k m = m := by
  intro m h
  unfold removeKey
  rw [List.filter_eq_self]
  intro p hp
  simpa using h p hp

/-- Looking up the inserted key finds the inserted value. -/
theorem lookupKey_insertSorted_self (k v : ℚ) :
    ∀ m : List (ℚ × ℚ), lookupKey k (insertSorted k v m) = some v := by
  intro m
  induction m with
  | nil => simp [insertSorted, lookupKey, List.find?_cons]
  | cons p t ih =>
    obtain ⟨k', v'⟩ := p
    rcases lt_trichotomy k k' with h | h | h
    · simp [insertSorted, h, lookupKey, List.find?_cons]
    · simp [insertSorted, h, lookupKey, List.find?_cons, lt_irrefl]
    · have h1 : ¬ k < k' := not_lt.mpr (le_of_lt h)
      have h2 : k ≠ k' := (ne_of_lt h).symm
      have h3 : k' ≠ k := ne_of_lt h
      simpa [insertSorted, h1, h2, lookupKey, List.find?_cons, h3] using ih

/-- Membership after an ordered insert: the element is the inserted pair
or was already present. -/
theorem mem_insertSorted (k v : ℚ) :
    ∀ (m : List (ℚ × ℚ)) {q : ℚ × ℚ}, q ∈ insertSorted k v m → q = (k, v) ∨ q ∈ m := by
  intro m
  induction m with
  | nil => intro q h; simp [insertSorted] at h; exact Or.inl h
  | cons p t ih =>
    obtain ⟨k', v'⟩ := p
    intro q h
    by_cases h1 : k < k'
    · simp [insertSorted, h1] at h
      rcases h with h | h | h
      · exact Or.inl (by simp [h])
      · exact Or.inr (by simp [h])
      · exact Or.inr (List.mem_cons_of_mem _ h)
    · by_cases h2 : k = k'
      · simp [insertSorted, h1, h2] at h
        rcases h with h | h
        · exact Or.inl (by rw [h, h2])
        · exact Or.inr (List.mem_cons_of_mem _ h)
      · simp only [insertSorted, if_neg h1, if_neg h2, List.mem_cons] at h
        rcases h with h | h
        · exact Or.inr (by simp [h])
        · rcases ih h with h' | h'
          · exact Or.inl h'
          · exact Or.inr (List.mem_cons_of_mem _ h')

/-- The delta loop never introduces a zero quantity. -/
theorem applySide_nonzero (l : List (String × String)) :
    ∀ m, (∀ p ∈ m, p.2 ≠ 0) → ∀ p ∈ (applySide l m).2, p.2 ≠ 0 := by
  induction l with
  | nil => intro m h; simpa [applySide] using h
  | cons d t ih =>
    intro m h
    cases hp : parseDecimal d.1 with
    | none => simpa [applySide, hp] using h
    | some price =>
      cases hq : parseDecimal d.2 with
      | none => simpa [applySide, hp, hq] using h
      | some quantity =>
        by_cases hz : quantity = 0
        · have h' : ∀ p ∈ removeKey price m, p.2 ≠ 0 :=
            fun p hpm => h p (List.mem_of_mem_filter hpm)
          simpa [applySide, hp, hq, hz] using ih (removeKey price m) h'
        · have h' : ∀ p ∈ insertSorted price quantity m, p.2 ≠ 0 := by
            intro p hpm
            rcases mem_insertSorted price quantity m hpm with h1 | h1
            · rw [h1]; exact hz
            · exact h p h1
          simpa [applySide, hp, hq, hz] using ih (insertSorted price quantity m) h'

/-- Snapshot side loading never introduces a zero quantity. -/
theorem loadSide_nonzero (l : List (String × String)) :
    ∀ m m', (∀ p ∈ m, p.2 ≠ 0) → loadSide l m = some m' → ∀ p ∈ m', p.2 ≠ 0 := by
  induction l with
  | nil =>
    intro m m' h he
    obtain rfl : m = m' := by simpa [loadSide] using he
    exact h
  | cons d t ih =>
    intro m m' h he
    cases hp : parseDecimal d.1 with
    | none => simp [loadSide, hp] at he
    | some price =>
      cases hq : parseDecimal d.2 with
      | none => simp [loadSide, hp, hq] at he
      | some quantity =>
        by_cases hz : quantity = 0
        · simp only [loadSide, hp, hq, if_pos hz] at he
          exact ih m m' h he
        · simp only [loadSide, hp, hq, if_neg hz] at he
          refine ih (insertSorted price quantity m) m' ?_ he
          intro p hpm
          rcases mem_insertSorted price quantity m hpm with h1 | h1
          · rw [h1]; exact hz
          · exact h p h1

/-- C6. An accepted, fully parseable update succeeds: the resulting maps
are the in-order fold of the spec's upsert over the parsed bid and ask
deltas and sequence_id becomes the update's last id; and upsert itself
removes the key on quantity zero (no-op when the key is absent) and
inserts or overwrites on a non-zero quantity. -/
theorem accepted_update_applies_upserts (ob : OrderBook) (update : DepthUpdate)
    (hs : ob.last_update_id < update.u)
    (hb : sideParses update.b = true) (ha : sideParses update.a = true) :
    apply_depth_update ob update =
      (UpdateResult.ok,
        OrderBook.mk update.u
          ((parsedDeltas update.b).foldl (fun acc d => upsert acc d.1 d.2) ob.bids)
          ((parsedDeltas update.a).foldl (fun acc d => upsert acc d.1 d.2) ob.asks)) ∧
      (∀ m price, lookupKey price (upsert m price 0) = none) ∧
      (∀ m price, (∀ p ∈ m, p.1 ≠ price) → upsert m price 0 = m) ∧
      (∀ m price quantity, quantity ≠ 0 →
        lookupKey price (upsert m price quantity) = some quantity) := by
  refine ⟨?_, ?_, ?_, ?_⟩
  · simp [apply_depth_update, hs, applySide_eq_fold update.b hb,
      applySide_eq_fold update.a ha]
  · intro m price
    simp [upsert, lookupKey_removeKey]
  · intro m price h
    simp [upsert, removeKey_eq_self_of_absent price m h]
  · intro m price quantity hq
    simp [upsert, hq, lookupKey_insertSorted_self]

/-- C6 witness: the application equation at the spec's bootstrap-and-apply
scenario, a zero-quantity delta at price 10 on a book holding 10. -/
theorem accepted_update_applies_upserts_witness :
    apply_depth_update (OrderBook.mk 100 [((10 : ℚ), (5 : ℚ))] [])
        (DepthUpdate.mk "depthUpdate" 0 "BNBUSDT" 101 101 [("10", "0")] []) =
      (UpdateResult.ok,
        OrderBook.mk 101
          ((parsedDeltas [("10", "0")]).foldl (fun acc d => upsert acc d.1 d.2)
            [((10 : ℚ), (5 : ℚ))])
          ((parsedDeltas ([] : List (String × String))).foldl
            (fun acc d => upsert acc d.1 d.2) ([] : List (ℚ × ℚ)))) :=
  (accepted_update_applies_upserts (OrderBook.mk 100 [((10 : ℚ), (5 : ℚ))] [])
    (DepthUpdate.mk "depthUpdate" 0 "BNBUSDT" 101 101 [("10", "0")] [])
    (by decide) (by decide) (by decide)).1

/-- C7 counterexample. The claim: no entry of a loaded book has zero or
negative quantity. from_snapshot filters only exact zeros: the snapshot
pair of price 10 and quantity minus one loads into a book whose bid
quantity is negative. -/
theorem snapshot_negative_quantity_kept :
    from_snapshot (DepthSnapshot.mk 100 [("10", "-1")] []) =
      some (OrderBook.mk 100 [((10 : ℚ), (-1 : ℚ))] []) ∧ (-1 : ℚ) < 0 := by
  decide

/-- C7 amended: no entry of a book produced by from_snapshot, nor of a
book produced by a successful apply_depth_update from a book without
zero quantities, carries quantity exactly zero; negative quantities are
not filtered. -/
theorem no_zero_qty_invariant :
    (∀ s ob, from_snapshot s = some ob → NoZeroQty ob) ∧
    (∀ ob update ob', NoZeroQty ob →
      apply_depth_update ob update = (UpdateResult.ok, ob') → NoZeroQty ob') := by
  constructor
  · intro s ob h
    rcases hb : loadSide s.bids [] with _ | bids <;>
      rcases ha : loadSide s.asks [] with _ | asks <;>
        simp [from_snapshot, hb, ha] at h
    subst h
    unfold NoZeroQty
    constructor
    · exact loadSide_nonzero s.bids [] bids (by simp) hb
    · exact loadSide_nonzero s.asks [] asks (by simp) ha
  · intro ob update ob' hnz happ
    rcases hB : applySide update.b ob.bids with ⟨bflag, bids'⟩
    rcases hA : applySide update.a ob.asks with ⟨aflag, asks'⟩
    by_cases hs : ob.last_update_id < update.u
    · cases bflag <;> cases aflag <;> simp [apply_depth_update, hs, hB, hA] at happ
      subst happ
      unfold NoZeroQty at hnz ⊢
      constructor
      · have hkeep := applySide_nonzero update.b ob.bids hnz.1
        rw [hB] at hkeep
        exact hkeep
      · have hkeep := applySide_nonzero update.a ob.asks hnz.2
        rw [hA] at hkeep
        exact hkeep
    · simp [apply_depth_update, hs] at happ

/-- C7 witness: the amended from_snapshot statement at a concrete
snapshot whose zero-quantity level is dropped. -/
theorem no_zero_qty_invariant_witness :
    NoZeroQty (OrderBook.mk 7 [((10 : ℚ), (5 : ℚ))] []) :=
  no_zero_qty_invariant.1 (DepthSnapshot.mk 7 [("10", "5"), ("11", "0")] [])
    (OrderBook.mk 7 [((10 : ℚ), (5 : ℚ))] []) (by decide)

/-- C4. The claim: a snapshot is adopted iff some pending update's range
covers its baseline. At baseline 100 the code rejects the covering
update with range 99 to 101 and adopts the entirely stale update with
range 90 to 95, which covers nothing, lowering the book id to 95: the
implemented condition is U below baseline and u below baseline, not the
overlap rule. -/
theorem adoption_contradicts_overlap_rule :
    spec_covers 100 99 101 ∧
      bootstrap_adopt (OrderBook.mk 100 [] [])
          (DepthUpdate.mk "depthUpdate" 0 "BNBUSDT" 99 101 [] []) = none ∧
      ¬ spec_covers 100 90 95 ∧
      bootstrap_adopt (OrderBook.mk 100 [] [])
          (DepthUpdate.mk "depthUpdate" 0 "BNBUSDT" 90 95 [] []) =
        some (OrderBook.mk 95 [] []) := by
  decide

/-- C5. The claim: sequence_id is non-decreasing over the ledger's
lifetime. The adoption step in main overwrites the freshly loaded book's
id with the pending update's last id, which its own guard forces to be
strictly smaller: a book at 100 is adopted with its id lowered to 96. -/
theorem adoption_decreases_sequence_id :
    bootstrap_adopt (OrderBook.mk 100 [] [])
        (DepthUpdate.mk "depthUpdate" 0 "BNBUSDT" 90 96 [] []) =
      some (OrderBook.mk 96 [] []) ∧ 96 < 100 := by
  decide

/-- C8. On any book whose maps satisfy the BTreeMap representation
invariant, bids_list yields strictly decreasing prices and asks_list
strictly increasing prices. -/
theorem book_projections_strictly_ordered (ob : OrderBook)
    (hb : sortedByKey ob.bids) (ha : sortedByKey ob.asks) :
    List.Pairwise (fun x y : ℚ × ℚ => y.1 < x.1) (bids_list ob) ∧
    List.Pairwise (fun x y : ℚ × ℚ => x.1 < y.1) (asks_list ob) := by
  constructor
  · have hsorted : List.Pairwise descBidOrder (bids_list ob) :=
      List.sorted_insertionSort descBidOrder ob.bids
    have hperm : (bids_list ob).Perm ob.bids :=
      List.perm_insertionSort descBidOrder ob.bids
    have hne : List.Pairwise (fun x y : ℚ × ℚ => x.1 ≠ y.1) ob.bids :=
      List.Pairwise.imp (fun h => ne_of_lt h) hb
    have hne' : List.Pairwise (fun x y : ℚ × ℚ => x.1 ≠ y.1) (bids_list ob) :=
      (List.Perm.pairwise_iff (fun h => Ne.symm h) hperm).mpr hne
    exact List.Pairwise.imp (fun h => lt_of_le_of_ne h.1 (Ne.symm h.2))
      (List.Pairwise.and hsorted hne')
  · exact ha

/-- C8 witness: both projections at a concrete two-level book. -/
theorem book_projections_strictly_ordered_witness :
    List.Pairwise (fun x y : ℚ × ℚ => y.1 < x.1)
      (bids_list (OrderBook.mk 1 [((1 : ℚ), (2 : ℚ)), ((3 : ℚ), (4 : ℚ))]
        [((5 : ℚ), (6 : ℚ)), ((7 : ℚ), (8 : ℚ))])) ∧
    List.Pairwise (fun x y : ℚ × ℚ => x.1 < y.1)
      (asks_list (OrderBook.mk 1 [((1 : ℚ), (2 : ℚ)), ((3 : ℚ), (4 : ℚ))]
        [((5 : ℚ), (6 : ℚ)), ((7 : ℚ), (8 : ℚ))])) :=
  book_projections_strictly_ordered
    (OrderBook.mk 1 [((1 : ℚ), (2 : ℚ)), ((3 : ℚ), (4 : ℚ))]
      [((5 : ℚ), (6 : ℚ)), ((7 : ℚ), (8 : ℚ))])
    (by decide) (by decide)

/-- The key of the max_by fold is the maximum of the keys. -/
theorem foldl_maxBy_key (t : List (ℚ × ℚ)) :
    ∀ x : ℚ × ℚ, (t.foldl (fun acc y => if acc.1 > y.1 then acc else y) x).1 =
      (t.map Prod.fst).foldl max x.1 := by
  induction t with
  | nil => intro x; rfl
  | cons y t ih =>
    intro x
    rw [List.foldl_cons, List.map_cons, List.foldl_cons, ih]
    have hkey : (if x.1 > y.1 then x else y).1 = max x.1 y.1 := by
      by_cases h : x.1 > y.1
      · rw [if_pos h, max_eq_left (le_of_lt h)]
      · rw [if_neg h, max_eq_right (not_lt.mp h)]
    rw [hkey]

/-- The key of the min_by fold is the minimum of the keys. -/
theorem foldl_minBy_key (t : List (ℚ × ℚ)) :
    ∀ x : ℚ × ℚ, (t.foldl (fun acc y => if acc.1 > y.1 then y else acc) x).1 =
      (t.map Prod.fst).foldl min x.1 := by
  induction t with
  | nil => intro x; rfl
  | cons y t ih =>
    intro x
    rw [List.foldl_cons, List.map_cons, List.foldl_cons, ih]
    have hkey : (if x.1 > y.1 then y else x).1 = min x.1 y.1 := by
      by_cases h : x.1 > y.1
      · rw [if_pos h, min_eq_right (le_of_lt h)]
      · rw [if_neg h, min_eq_left (not_lt.mp h)]
    rw [hkey]

/-- C9. spread is the minimum ask price minus the maximum bid price when
both sides are non-empty, and none when either side is empty. -/
theorem spread_eq_min_ask_sub_max_bid (ob : OrderBook) :
    spread ob =
      match keyMax (ob.bids.map Prod.fst), keyMin (ob.asks.map Prod.fst) with
      | some bidPrice, some askPrice => some (askPrice - bidPrice)
      | _, _ => none := by
  rcases hb : ob.bids with _ | ⟨x, xs⟩ <;> rcases ha : ob.asks with _ | ⟨y, ys⟩ <;>
    simp [spread, best_bid, best_ask, keyMax, keyMin, hb, ha,
      foldl_maxBy_key, foldl_minBy_key]

end OrderBookSync
